import Mathlib

/-!
# Verification of the gh-compare aggregation and comparison engine

A shallow embedding, in Lean 4, of the core logic of the gh-compare
repository: the metric builder and hero-metric selector, the language and
contribution aggregators, the TTL cache, repository pagination with totals,
handle normalization, the narrative/meme-prompt generator, and the GraphQL
client wrapper.  JavaScript numbers are modelled as rationals (counts as
naturals), strings as Lean strings (or character lists where
character-level reasoning is needed), JS `Map`s as insertion-ordered
association lists, and `Array.prototype.sort` — stable for consistent
comparators — as insertion sort with the "comes no later than" relation of
the comparator.
-/

namespace GhCompare

/-! ## Two-decimal rounding

`Number(x.toFixed(2))` rounds the magnitude to the nearest multiple of
`1/100`, ties away from zero. -/

def round2 (q : ℚ) : ℚ :=
  if q < 0 then -(((⌊-q * 100 + 1 / 2⌋ : ℤ) : ℚ) / 100)
  else ((⌊q * 100 + 1 / 2⌋ : ℤ) : ℚ) / 100

/-! ## Comparison metrics (`buildMetric`, `selectHeroMetric`) -/

inductive Direction where
  | up
  | down
  | equal
deriving DecidableEq

structure ComparisonMetric where
  id : String
  label : String
  userA : ℚ
  userB : ℚ
  diff : ℚ
  direction : Direction
  description : Option String
deriving DecidableEq

def SAFE_METRIC_DIFF_THRESHOLD : ℚ := 1 / 100

def buildMetric (id label : String) (userA userB : ℚ)
    (description : Option String) : ComparisonMetric :=
  let diff := round2 (userA - userB)
  let direction :=
    if |diff| ≤ SAFE_METRIC_DIFF_THRESHOLD then Direction.equal
    else if 0 < diff then Direction.up
    else Direction.down
  { id := id, label := label, userA := userA, userB := userB,
    diff := diff, direction := direction, description := description }

/-- The sort relation of the comparator `(a, b) => Math.abs(b.diff) - Math.abs(a.diff)`:
`a` may come before `b` iff `|b.diff| ≤ |a.diff|`. -/
def heroAbsLe (a b : ComparisonMetric) : Prop := |b.diff| ≤ |a.diff|

instance : DecidableRel heroAbsLe := fun a b => inferInstanceAs (Decidable (_ ≤ _))

instance : IsTotal ComparisonMetric heroAbsLe := ⟨fun _ _ => le_total _ _⟩

instance : IsTrans ComparisonMetric heroAbsLe := ⟨fun _ _ _ h1 h2 => le_trans h2 h1⟩

def selectHeroMetric (metrics : List ComparisonMetric) : Option ComparisonMetric :=
  (List.insertionSort heroAbsLe
    (metrics.filter (fun m => decide (m.direction ≠ Direction.equal)))).head?

/-- Spec-side selector: among the metrics whose direction is not "equal", the
first one, in list order, whose absolute difference dominates all of them. -/
def heroSpecFirstMax (metrics : List ComparisonMetric) : Option ComparisonMetric :=
  let elig := metrics.filter (fun m => decide (m.direction ≠ Direction.equal))
  elig.find? (fun x => elig.all (fun y => decide (heroAbsLe x y)))

/-! ## JS `Map` as an insertion-ordered association list -/

def mapGet {β : Type} (key : String) : List (String × β) → Option β
  | [] => none
  | p :: rest => if p.1 = key then some p.2 else mapGet key rest

def mapSet {β : Type} (key : String) (v : β) : List (String × β) → List (String × β)
  | [] => [(key, v)]
  | p :: rest => if p.1 = key then (key, v) :: rest else p :: mapSet key v rest

def mapDelete {β : Type} (key : String) (st : List (String × β)) : List (String × β) :=
  st.filter (fun p => decide (p.1 ≠ key))

/-! ## Repository records and language aggregation (`aggregateLanguageStats`) -/

structure RestRepo where
  name : String
  stargazers_count : ℕ
  watchers_count : ℕ
  forks_count : ℕ
  open_issues_count : ℕ
  language : Option String
deriving DecidableEq

structure LanguageNode where
  name : String
  color : Option String
deriving DecidableEq

structure LanguageEdge where
  size : ℕ
  node : LanguageNode
deriving DecidableEq

/-- A GraphQL repository node; `languages` holds the `languages.edges` list. -/
structure GraphqlRepository where
  name : String
  languages : List LanguageEdge
deriving DecidableEq

structure LangEntry where
  bytes : ℕ
  color : Option String
  repoCount : ℕ
deriving DecidableEq

/-- One step of the per-edge accumulation in the GraphQL branch of
`aggregateLanguageStats`; the first component is the `seenLanguages` set of
the current repository. -/
def applyEdge (acc : List String × List (String × LangEntry)) (edge : LanguageEdge) :
    List String × List (String × LangEntry) :=
  let current0 := (mapGet edge.node.name acc.2).getD ⟨0, edge.node.color, 0⟩
  let current1 : LangEntry := ⟨current0.bytes + edge.size, current0.color, current0.repoCount⟩
  let current2 : LangEntry :=
    if edge.node.name ∈ acc.1 then current1
    else ⟨current1.bytes, current1.color, current1.repoCount + 1⟩
  let newSeen := if edge.node.name ∈ acc.1 then acc.1 else edge.node.name :: acc.1
  let current3 : LangEntry :=
    ⟨current2.bytes, (current2.color).orElse (fun _ => edge.node.color), current2.repoCount⟩
  (newSeen, mapSet edge.node.name current3 acc.2)

def applyGqlRepo (totals : List (String × LangEntry)) (repo : GraphqlRepository) :
    List (String × LangEntry) :=
  (repo.languages.foldl applyEdge ([], totals)).2

def applyRestRepo (totals : List (String × LangEntry)) (repo : RestRepo) :
    List (String × LangEntry) :=
  match repo.language with
  | none => totals
  | some lang =>
    let current0 := (mapGet lang totals).getD ⟨0, none, 0⟩
    mapSet lang ⟨current0.bytes + 1, current0.color, current0.repoCount + 1⟩ totals

/-- The `languageTotals` map after both accumulation branches; the GraphQL
branch is taken exactly when `gqlRepos?.length` is truthy. -/
def languageTotals (restRepos : List RestRepo) (gqlRepos : Option (List GraphqlRepository)) :
    List (String × LangEntry) :=
  match gqlRepos with
  | some l => if l.length ≠ 0 then l.foldl applyGqlRepo [] else restRepos.foldl applyRestRepo []
  | none => restRepos.foldl applyRestRepo []

structure LanguageStat where
  name : String
  bytes : ℕ
  repoCount : ℕ
  color : Option String
  percentage : ℚ
deriving DecidableEq

def totalLanguageBytes (totals : List (String × LangEntry)) : ℕ :=
  (totals.map (fun p => p.2.bytes)).sum

/-- The sort relation of the comparator `(a, b) => b.bytes - a.bytes`. -/
def bytesDescLe (a b : LanguageStat) : Prop := b.bytes ≤ a.bytes

instance : DecidableRel bytesDescLe := fun a b => inferInstanceAs (Decidable (_ ≤ _))

instance : IsTotal LanguageStat bytesDescLe := ⟨fun _ _ => le_total _ _⟩

instance : IsTrans LanguageStat bytesDescLe := ⟨fun _ _ _ h1 h2 => le_trans h2 h1⟩

def aggregateLanguageStats (restRepos : List RestRepo)
    (gqlRepos : Option (List GraphqlRepository)) : List LanguageStat :=
  let totals := languageTotals restRepos gqlRepos
  let totalBytes := totalLanguageBytes totals
  let stats := totals.map (fun p =>
    (⟨p.1, p.2.bytes, p.2.repoCount, p.2.color,
      if totalBytes = 0 then 0
      else round2 ((p.2.bytes : ℚ) / (totalBytes : ℚ) * 100)⟩ : LanguageStat))
  (List.insertionSort bytesDescLe stats).take 8

/-! ## The TTL cache (`TTLCache.get` / `set` / `remember`)

Time is passed explicitly in place of `Date.now()`; the factory of
`remember` is modelled by the value it would produce, and the outcome
records whether the factory was invoked. -/

structure Entry (V : Type) where
  value : V
  expiresAt : ℕ
deriving DecidableEq

abbrev Store (V : Type) := List (String × Entry V)

def cacheGet {V : Type} (now : ℕ) (key : String) (st : Store V) : Option V × Store V :=
  match mapGet key st with
  | none => (none, st)
  | some e => if e.expiresAt < now then (none, mapDelete key st) else (some e.value, st)

def cacheSet {V : Type} (now : ℕ) (key : String) (value : V) (ttlMs : ℕ) (st : Store V) :
    Store V :=
  mapSet key ⟨value, now + ttlMs⟩ st

structure RememberOutcome (V : Type) where
  value : V
  store : Store V
  invoked : Bool

def remember {V : Type} (now : ℕ) (key : String) (factoryValue : V) (ttlMs : ℕ)
    (st : Store V) : RememberOutcome V :=
  match cacheGet now key st with
  | (some v, st2) => ⟨v, st2, false⟩
  | (none, st2) => ⟨factoryValue, cacheSet now key factoryValue ttlMs st2, true⟩

/-! ## Repository pagination (`fetchUserRepositories`) and totals -/

/-- One page of the `/users/:login/repos?per_page=100` listing; `hasNext`
models the presence of a `rel="next"` link header on the response. -/
structure RepoPage where
  batch : List RestRepo
  hasNext : Bool

def fetchReposGo (pages : ℕ → RepoPage) (page : ℕ) (acc : List RestRepo) : List RestRepo :=
  let p := pages page
  let acc2 := acc ++ p.batch
  if h : p.hasNext = false ∨ p.batch.length < 100 ∨ 3 ≤ page then acc2
  else fetchReposGo pages (page + 1) acc2
termination_by 3 - page
decreasing_by
  push_neg at h
  have hp : page < 3 := h.2.2
  omega

def fetchUserRepositories (pages : ℕ → RepoPage) : List RestRepo :=
  fetchReposGo pages 1 []

structure Totals where
  stars : ℕ
  forks : ℕ
  watchers : ℕ
  issues : ℕ
deriving DecidableEq

def computeTotals (repos : List RestRepo) : Totals :=
  repos.foldl (fun acc repo =>
    ⟨acc.stars + repo.stargazers_count, acc.forks + repo.forks_count,
     acc.watchers + repo.watchers_count, acc.issues + repo.open_issues_count⟩)
    ⟨0, 0, 0, 0⟩

/-! ## Handle normalization (`sanitizeLogin`)

Strings are modelled as character lists here, since the claims need
character-level reasoning about trimming and the profile-URL regex
`/github\.com\/([^\/?#]+)/i`. -/

def isWsChar (c : Char) : Bool := c == ' ' || c == '\t' || c == '\n' || c == '\r'

/-- `String.prototype.trim`. -/
def trimChars (l : List Char) : List Char :=
  (((l.dropWhile isWsChar).reverse).dropWhile isWsChar).reverse

/-- The literal part of the pattern, each character with its upper-case
variant (the regex is case-insensitive). -/
def ghPattern : List (Char × Char) :=
  [('g', 'G'), ('i', 'I'), ('t', 'T'), ('h', 'H'), ('u', 'U'), ('b', 'B'),
   ('.', '.'), ('c', 'C'), ('o', 'O'), ('m', 'M'), ('/', '/')]

def matchCI : List (Char × Char) → List Char → Bool
  | [], _ => true
  | _ :: _, [] => false
  | p :: ps, c :: cs => (c == p.1 || c == p.2) && matchCI ps cs

/-- The characters excluded by `[^\/?#]`. -/
def isPathStop (c : Char) : Bool := c == '/' || c == '?' || c == '#'

/-- Regex search: at each start position try to match the literal
`github.com/` case-insensitively followed by a non-empty run of
non-path-stop characters, returning the first capture. -/
def scanGithubUrl : List Char → Option (List Char)
  | [] => none
  | c :: rest =>
    if matchCI ghPattern (c :: rest) then
      let cap := ((c :: rest).drop 11).takeWhile (fun d => !(isPathStop d))
      if cap.isEmpty then scanGithubUrl rest else some cap
    else scanGithubUrl rest

/-- `trimmed.replace(/^@/, "")`: drops one leading `@`. -/
def stripLeadingAt (l : List Char) : List Char :=
  match l with
  | [] => []
  | c :: rest => if c = '@' then rest else c :: rest

/-- `sanitizeLogin`; `none` models the thrown invalid-input error. -/
def sanitizeLogin (input : List Char) : Option (List Char) :=
  let trimmed := trimChars input
  if trimmed.isEmpty then none
  else
    match scanGithubUrl trimmed with
    | some cap => some cap
    | none => some (stripLeadingAt trimmed)

/-- ASCII lower-casing, as `String.prototype.toLowerCase` on handles. -/
def lowerChar (c : Char) : Char :=
  if 'A' ≤ c ∧ c ≤ 'Z' then Char.ofNat (c.toNat + 32) else c

/-- The insights cache key of a sanitized login. -/
def toCacheKey (l : List Char) : List Char := l.map lowerChar

/-- Characters allowed in a handle: alphanumerics and hyphen. -/
def isHandleChar (c : Char) : Bool := c.isAlpha || c.isDigit || c == '-'

def ValidHandle (l : List Char) : Prop := l ≠ [] ∧ ∀ c ∈ l, isHandleChar c = true

/-- The profile-URL form used in the C6 claim: `https://github.com/` + handle. -/
def profileUrlStart : List Char :=
  ['h', 't', 't', 'p', 's', ':', '/', '/', 'g', 'i', 't', 'h', 'u', 'b', '.', 'c', 'o', 'm', '/']

/-! ## Contribution aggregation (`aggregateContributionStats`) -/

/-- Lexicographic comparison of character lists by code point, modelling
`localeCompare` on ISO date strings. -/
def charListLt : List Char → List Char → Bool
  | _, [] => false
  | [], _ :: _ => true
  | c :: cs, d :: ds =>
    if c.toNat < d.toNat then true
    else if d.toNat < c.toNat then false
    else charListLt cs ds

structure ContributionDay where
  date : String
  contributionCount : ℕ
deriving DecidableEq

/-- The sort relation of `(a, b) => a.date.localeCompare(b.date)`:
`a` may come before `b` iff `b.date` is not strictly smaller. -/
def dayDateLe (a b : ContributionDay) : Prop := charListLt b.date.data a.date.data = false

instance : DecidableRel dayDateLe := fun a b => inferInstanceAs (Decidable (_ = _))

structure ContributionWeek where
  firstDay : String
  contributionDays : List ContributionDay
deriving DecidableEq

structure ContributionCalendarData where
  totalContributions : ℕ
  weeks : List ContributionWeek
deriving DecidableEq

structure GraphqlContributionCalendar where
  contributionCalendar : ContributionCalendarData
  totalCommitContributions : ℕ
  totalIssueContributions : ℕ
  totalPullRequestContributions : ℕ
  totalPullRequestReviewContributions : ℕ
  restrictedContributionsCount : ℕ
deriving DecidableEq

structure WeeklyContribution where
  weekStart : String
  total : ℕ
deriving DecidableEq

structure StreakInfo where
  current : ℕ
  longest : ℕ
deriving DecidableEq

structure ContributionBreakdown where
  commits : ℕ
  pullRequests : ℕ
  reviews : ℕ
  issues : ℕ
  restricted : ℕ
deriving DecidableEq

structure ContributionStats where
  total : ℕ
  lastYear : ℕ
  weeklyAverage : ℚ
  weeklyMax : ℕ
  weeklySeries : List WeeklyContribution
  streak : StreakInfo
  breakdown : ContributionBreakdown
deriving DecidableEq

/-- All contribution days, flattened across weeks and sorted by date. -/
def sortedContributionDays (weeks : List ContributionWeek) : List ContributionDay :=
  List.insertionSort dayDateLe ((weeks.map (fun w => w.contributionDays)).join)

/-- The single scan of the streak loop: running streak and maximum seen. -/
def streakFold (days : List ContributionDay) : ℕ × ℕ :=
  days.foldl (fun p day =>
    if day.contributionCount > 0 then (p.1 + 1, max p.2 (p.1 + 1)) else (0, p.2))
    (0, 0)

/-- Spec-side streak computation, defined from the words of the spec:
sort all days chronologically and scan once, incrementing a running streak on
any day with count > 0 and resetting it to 0 otherwise, tracking the maximum
seen; the result is (current streak, longest streak). -/
def streakScanSpec (days : List ContributionDay) : ℕ × ℕ :=
  days.foldl (fun p day =>
    if day.contributionCount > 0 then (p.1 + 1, max p.2 (p.1 + 1)) else (0, p.2))
    (0, 0)

def aggregateContributionStats (data : Option GraphqlContributionCalendar) :
    Option ContributionStats :=
  match data with
  | none => none
  | some data =>
    let weeks := data.contributionCalendar.weeks
    let weeklySeries := weeks.map (fun week =>
      (⟨week.firstDay, (week.contributionDays.map (fun d => d.contributionCount)).sum⟩ :
        WeeklyContribution))
    let weeklyTotals : List ℕ := weeklySeries.map (fun w => w.total)
    let weeklyAverage : ℚ :=
      if weeklyTotals.length = 0 then 0
      else round2 ((weeklyTotals.sum : ℚ) / (weeklyTotals.length : ℚ))
    let weeklyMax := if weeklyTotals.length = 0 then 0 else weeklyTotals.foldr max 0
    let streaks := streakFold (sortedContributionDays weeks)
    some
      { total := data.contributionCalendar.totalContributions
        lastYear := weeklyTotals.sum
        weeklyAverage := weeklyAverage
        weeklyMax := weeklyMax
        weeklySeries := weeklySeries
        streak := ⟨streaks.1, streaks.2⟩
        breakdown := ⟨data.totalCommitContributions, data.totalPullRequestContributions,
          data.totalPullRequestReviewContributions, data.totalIssueContributions,
          data.restrictedContributionsCount⟩ }

/-! ## Narrative and meme prompt (`buildSummary`, `deriveMemePrompt`)

The `Math.random()` draws of `pickRandom` are modelled by explicit natural
number indices, one per draw. -/

structure MemePrompt where
  templateId : String
  topText : String
  bottomText : String
deriving DecidableEq

structure GitHubUserInsights where
  login : String
  followers : ℕ
  publicRepos : ℕ
  totals : Totals
  languages : List LanguageStat
  contributions : Option ContributionStats
deriving DecidableEq

structure ComparisonResult where
  userA : GitHubUserInsights
  userB : GitHubUserInsights
  metrics : List ComparisonMetric
  heroMetric : Option ComparisonMetric
  summary : String
  memePrompt : Option MemePrompt
deriving DecidableEq

def memeTemplatesDominant : List String := ["61579", "188390779", "252600902"]

def memeTemplatesClose : List String := ["129242436", "222403160", "112126428"]

def memeTemplatesUpset : List String := ["181913649", "247375501", "129365222"]

def memeTemplatesTie : List String := ["438680", "217743513", "4087833"]

inductive Scenario where
  | dominant
  | close
  | upset
deriving DecidableEq

def memeTemplatePool : Scenario → List String
  | .dominant => memeTemplatesDominant
  | .close => memeTemplatesClose
  | .upset => memeTemplatesUpset

/-- `gap > 100 ? "dominant" : gap < 10 ? "close" : "upset"`. -/
def scenarioOf (gap : ℚ) : Scenario :=
  if 100 < gap then .dominant else if gap < 10 then .close else .upset

/-- `items[Math.floor(random * items.length)]`, the random draw replaced by
an explicit index reduced modulo the pool size. -/
def pickRandom (r : ℕ) (items : List String) : String := items.getD (r % items.length) ""

/-- Render a tenths value, dropping a trailing `.0`. -/
def tenthsString (t : ℕ) : String :=
  if t % 10 = 0 then toString (t / 10) else toString (t / 10) ++ "." ++ toString (t % 10)

/-- Modelled from the spec: `formatStat` delegates to the platform
`Intl.NumberFormat` compact formatter, which is not code of this repository;
per the spec, values of magnitude at least 1000 are compacted to at most one
decimal plus a magnitude suffix (e.g. "12.3K"), smaller values are shown as
the raw rounded number. -/
def formatStat (q : ℚ) : String :=
  let a := |q|
  if a < 1000 then tenthsString (⌊a * 10 + 1 / 2⌋).toNat
  else if a < 1000000 then tenthsString (⌊a / 1000 * 10 + 1 / 2⌋).toNat ++ "K"
  else if a < 1000000000 then tenthsString (⌊a / 1000000 * 10 + 1 / 2⌋).toNat ++ "M"
  else tenthsString (⌊a / 1000000000 * 10 + 1 / 2⌋).toNat ++ "B"

/-- Modelled from the spec: the template-literal interpolation
`${Math.abs(result.heroMetric.diff)}` uses the platform number-to-string
rendering, here restricted to the nonnegative two-decimal rationals that
stored diffs take: up to two decimal places, trailing zeros omitted. -/
def numToString (q : ℚ) : String :=
  let n := (⌊q * 100 + 1 / 2⌋).toNat
  if n % 100 = 0 then toString (n / 100)
  else if n % 10 = 0 then toString (n / 100) ++ "." ++ toString ((n % 100) / 10)
  else toString (n / 100) ++ "." ++
    (if n % 100 < 10 then "0" ++ toString (n % 100) else toString (n % 100))

def outshineSentence (winner loser : String) (m : ComparisonMetric) : String :=
  winner ++ " outshines " ++ loser ++ " on " ++ m.label.toLower ++ " by " ++
    numToString |m.diff| ++ ". Check the charts for the full story."

def tieSentence (a b : String) : String :=
  a ++ " and " ++ b ++ " are neck and neck across all tracked metrics."

def buildSummary (result : ComparisonResult) : String :=
  match result.heroMetric with
  | none => tieSentence result.userA.login result.userB.login
  | some heroMetric =>
    outshineSentence
      (if 0 ≤ heroMetric.diff then result.userA.login else result.userB.login)
      (if 0 ≤ heroMetric.diff then result.userB.login else result.userA.login)
      heroMetric

/-- `user.languages[0]?.name ?? "mystery stack"`. -/
def topLanguageName (user : GitHubUserInsights) : String :=
  match user.languages.head? with
  | some l => l.name
  | none => "mystery stack"

def tieTopOptions (a b : GitHubUserInsights) : List String :=
  let duo := a.login ++ " & " ++ b.login
  [duo ++ " in the ultimate merge conflict",
   duo ++ " trying to out-commit each other",
   duo ++ " same vibes, different clones"]

def tieBottomOptions (a b : GitHubUserInsights) : List String :=
  let languages := topLanguageName a ++ " vs " ++ topLanguageName b
  ["Result: perfect tie. Maybe pair on " ++ languages ++ "?",
   "No winner. Just two legends pushing main together.",
   "It\x27s a dead heat. Time for a duo livestream in " ++ languages ++ "."]

def scenarioTopOptions (sc : Scenario) (winner loser : GitHubUserInsights)
    (metricName fWin : String) : List String :=
  match sc with
  | .dominant =>
    [winner.login ++ " farming " ++ metricName ++ " like it\x27s Hacktoberfest",
     "Meanwhile " ++ winner.login ++ " speedruns " ++ metricName,
     winner.login ++ " hitting " ++ fWin ++ " " ++ metricName ++ " before standup"]
  | .close =>
    [winner.login ++ " barely edges " ++ loser.login ++ " on " ++ metricName,
     winner.login ++ " vs " ++ loser.login ++ ": photo-finish on " ++ metricName,
     winner.login ++ " sneaks ahead with " ++ fWin ++ " " ++ metricName]
  | .upset =>
    [winner.login ++ " drops an upset in " ++ metricName,
     "Plot twist: " ++ winner.login ++ " takes " ++ metricName,
     winner.login ++ " whispers \"hold my keyboard\""]

def scenarioBottomOptions (sc : Scenario) (winner loser : GitHubUserInsights)
    (metricName fWin fLos winnerLanguage loserLanguage secondaryLine : String) : List String :=
  match sc with
  | .dominant =>
    [loser.login ++ " stuck at " ++ fLos ++ " and refactoring " ++ loserLanguage ++ " code.",
     loser.login ++ " googling \"how to catch up " ++ fWin ++ "-" ++ fLos ++ "\"",
     loser.login ++ " whispering to " ++ loserLanguage ++ ": \"We need more " ++
       metricName ++ "...\""]
  | .close =>
    [loser.login ++ " sitting at " ++ fLos ++ " â€” rematch after lunch?",
     "Scoreboard: " ++ winner.login ++ " " ++ fWin ++ " vs " ++ loser.login ++ " " ++ fLos ++ ".",
     loser.login ++ " sharpening " ++ loserLanguage ++ " skills for the next push."]
  | .upset =>
    [loser.login ++ " stunned at " ++ fLos ++ ". " ++ secondaryLine,
     loser.login ++ " was not ready for the " ++ winnerLanguage ++ " flex.",
     loser.login ++ " writing a retro on how this happened."]

def deriveMemePrompt (r1 r2 r3 : ℕ) (result : ComparisonResult) : MemePrompt :=
  match result.heroMetric with
  | none =>
    { templateId := pickRandom r1 memeTemplatesTie
      topText := pickRandom r2 (tieTopOptions result.userA result.userB)
      bottomText := pickRandom r3 (tieBottomOptions result.userA result.userB) }
  | some heroMetric =>
    let winner := if 0 ≤ heroMetric.diff then result.userA else result.userB
    let loser := if 0 ≤ heroMetric.diff then result.userB else result.userA
    let winnerValue := if 0 ≤ heroMetric.diff then heroMetric.userA else heroMetric.userB
    let loserValue := if 0 ≤ heroMetric.diff then heroMetric.userB else heroMetric.userA
    let gap := |heroMetric.diff|
    let scenario := scenarioOf gap
    let templateId := pickRandom r1 (memeTemplatePool scenario)
    let secondaryMetric := (List.insertionSort heroAbsLe
      (result.metrics.filter (fun m => decide (m.id ≠ heroMetric.id)))).head?
    let secondaryLine :=
      match secondaryMetric with
      | some sm =>
        (if 0 ≤ sm.diff then result.userA.login else result.userB.login) ++ " owns " ++
          sm.label.toLower ++ " (" ++ formatStat (max sm.userA sm.userB) ++ " vs " ++
          formatStat (min sm.userA sm.userB) ++ ")."
      | none => winner.login ++ " is on a roll."
    let metricName := heroMetric.label.toLower
    let fWin := formatStat winnerValue
    let fLos := formatStat loserValue
    { templateId := templateId
      topText := pickRandom r2 (scenarioTopOptions scenario winner loser metricName fWin)
      bottomText := pickRandom r3 (scenarioBottomOptions scenario winner loser metricName
        fWin fLos (topLanguageName winner) (topLanguageName loser) secondaryLine) }

/-! ## Sample data for concrete instantiations -/

def sampleUserA : GitHubUserInsights :=
  ⟨"alice", 10, 5, ⟨500, 0, 0, 0⟩, [], none⟩

def sampleUserB : GitHubUserInsights :=
  ⟨"bob", 400, 5, ⟨350, 0, 0, 0⟩, [], none⟩

def sampleStarsMetric : ComparisonMetric :=
  buildMetric "stars" "Repository Stars" 500 350 none

def sampleComparison : ComparisonResult :=
  ⟨sampleUserA, sampleUserB, [sampleStarsMetric], some sampleStarsMetric, "", none⟩

def sampleTieComparison : ComparisonResult :=
  ⟨sampleUserA, sampleUserB, [], none, "", none⟩

/-! ## The GraphQL client wrapper (`githubGraphqlFetch`) -/

structure GraphQlErrorEntry where
  message : String
deriving DecidableEq

structure GraphQlResponsePayload (T : Type) where
  data : Option T
  errors : Option (List GraphQlErrorEntry)

structure HttpResponse (T : Type) where
  ok : Bool
  status : ℕ
  payload : GraphQlResponsePayload T

/-- `GitHubApiError` with its message, HTTP status, and raw payload. -/
structure GitHubApiError (T : Type) where
  message : String
  status : ℕ
  data : GraphQlResponsePayload T

/-- JS truthiness of `env.GITHUB_ACCESS_TOKEN`: absent and empty-string
credentials are both falsy. -/
def hasToken (token : Option String) : Bool :=
  match token with
  | none => false
  | some s => !(s == "")

/-- Truthiness of `payload.errors?.length`. -/
def errorsNonempty {T : Type} (p : GraphQlResponsePayload T) : Bool :=
  match p.errors with
  | none => false
  | some l => !(l.length == 0)

/-- `payload.errors?.[0]?.message ?? "GitHub GraphQL API error (status)"`. -/
def graphqlErrorMessage {T : Type} (p : GraphQlResponsePayload T) (status : ℕ) : String :=
  match p.errors with
  | some (e :: _) => e.message
  | _ => "GitHub GraphQL API error (" ++ toString status ++ ")"

/-- `githubGraphqlFetch`, with the parsed response supplied as data (a JSON
parse failure corresponds to an empty payload). -/
def githubGraphqlFetch {T : Type} (token : Option String) (resp : HttpResponse T) :
    Except (GitHubApiError T) (Option T) :=
  if hasToken token = false then Except.ok none
  else if resp.ok = false ∨ errorsNonempty resp.payload = true then
    Except.error ⟨graphqlErrorMessage resp.payload resp.status, resp.status, resp.payload⟩
  else Except.ok resp.payload.data

/-! # Theorems -/

/-! ## The JS stable sort

`arr.sort(cmp)` with a consistent comparator produces the unique list that is
sorted for the total preorder `cmp(a, b) <= 0` and stable.  Mathlib's
`List.insertionSort r` is exactly that list when `r a b` means
"`a` may come before `b`", so the embedding uses it throughout. -/

section SortLemmas

variable {α : Type} (r : α → α → Prop) [DecidableRel r]

/-- If `find?` returns `a` for a predicate `p`, and `q` is pointwise stronger
than `p` yet holds at `a`, then `find?` for `q` also returns `a`. -/
theorem find?_of_stronger (p q : α → Bool) (hpq : ∀ x, q x = true → p x = true) :
    ∀ l : List α, ∀ a : α, l.find? p = some a → q a = true → l.find? q = some a := by
  intro l
  induction l with
  | nil => intro a h _; simp at h
  | cons x xs ih =>
    intro a h hqa
    by_cases hx : p x = true
    · rw [List.find?_cons_of_pos _ hx] at h
      cases h
      exact List.find?_cons_of_pos _ hqa
    · have hqx : q x = false := by
        cases hq : q x
        · rfl
        · exact absurd (hpq x hq) hx
      rw [List.find?_cons_of_neg _ (by simp [hx])] at h
      rw [List.find?_cons_of_neg _ (by simp [hqx])]
      exact ih a h hqa

/-- A total relation is reflexive. -/
theorem total_refl [IsTotal α r] (x : α) : r x x := (IsTotal.total x x).elim id id

/-- The head of the stable sort is the first element of the original list whose
key dominates every element, i.e. the first occurrence of the maximum. -/
theorem head?_insertionSort [IsTotal α r] [IsTrans α r] :
    ∀ l : List α,
      (List.insertionSort r l).head? = l.find? (fun x => l.all (fun y => decide (r x y))) := by
  intro l
  induction l with
  | nil => rfl
  | cons x xs ih =>
    have hsort : List.insertionSort r (x :: xs) = List.orderedInsert r x (List.insertionSort r xs) := rfl
    cases hs : List.insertionSort r xs with
    | nil =>
      have hxs : xs = [] := by
        have hperm := List.perm_insertionSort r xs
        rw [hs] at hperm
        exact (hperm.symm).eq_nil
      subst hxs
      simp [List.insertionSort, List.orderedInsert, List.find?, total_refl r x]
    | cons h t =>
      have hsorted : List.Sorted r (h :: t) := hs ▸ List.sorted_insertionSort r xs
      have hperm : List.Perm (h :: t) xs := hs ▸ List.perm_insertionSort r xs
      have hmem_iff : ∀ y, y ∈ xs ↔ (y = h ∨ y ∈ t) := by
        intro y
        rw [← hperm.mem_iff]
        simp
      have hdomt : ∀ y ∈ t, r h y := (List.sorted_cons.mp hsorted).1
      have ihh : xs.find? (fun z => xs.all (fun y => decide (r z y))) = some h := by
        rw [← ih, hs]
        rfl
      rw [hsort, hs]
      by_cases hxh : r x h
      · have hins : List.orderedInsert r x (h :: t) = x :: h :: t := by
          simp [List.orderedInsert, hxh]
        rw [hins]
        have hall : ((x :: xs).all (fun y => decide (r x y))) = true := by
          rw [List.all_eq_true]
          intro y hy
          rcases List.mem_cons.mp hy with hy | hy
          · rw [hy]
            exact decide_eq_true (total_refl r x)
          · rcases (hmem_iff y).mp hy with hy2 | hy2
            · rw [hy2]; exact decide_eq_true hxh
            · exact decide_eq_true (Trans.trans hxh (hdomt y hy2))
        simp [List.find?, hall]
      · have hhx : r h x := (IsTotal.total x h).resolve_left hxh
        have hins : List.orderedInsert r x (h :: t) = h :: List.orderedInsert r x t := by
          simp [List.orderedInsert, hxh]
        rw [hins]
        have hxfail : ((x :: xs).all (fun y => decide (r x y))) = false := by
          have hhmem : h ∈ x :: xs := List.mem_cons_of_mem x ((hmem_iff h).mpr (Or.inl rfl))
          rw [List.all_eq_false]
          exact ⟨h, hhmem, by simp [hxh]⟩
        have hstrong : ∀ z, ((x :: xs).all (fun y => decide (r z y)) = true) →
            (xs.all (fun y => decide (r z y)) = true) := by
          intro z hz
          rw [List.all_eq_true] at hz ⊢
          intro y hy
          exact hz y (List.mem_cons_of_mem x hy)
        have hph0 := @List.find?_some α (fun z => xs.all (fun y => decide (r z y))) h xs ihh
        have hph : (xs.all (fun y => decide (r h y))) = true := hph0
        have hqh : ((x :: xs).all (fun y => decide (r h y))) = true := by
          rw [List.all_eq_true]
          intro y hy
          rcases List.mem_cons.mp hy with hy | hy
          · rw [hy]; exact decide_eq_true hhx
          · exact (List.all_eq_true.mp hph) y hy
        have hfound := find?_of_stronger
          (fun z => xs.all (fun y => decide (r z y)))
          (fun z => (x :: xs).all (fun y => decide (r z y))) hstrong xs h ihh hqh
        simp only [List.all_cons] at hfound
        simp [List.find?, hxfail]
        exact hfound.symm

end SortLemmas

/-! ## Rounding bounds -/

theorem round2_le (q : ℚ) : round2 q ≤ q + 1 / 200 := by
  unfold round2
  split_ifs with h
  · linarith [Int.lt_floor_add_one (-q * 100 + 1 / 2)]
  · linarith [Int.floor_le (q * 100 + 1 / 2)]

theorem le_round2 (q : ℚ) : q - 1 / 200 ≤ round2 q := by
  unfold round2
  split_ifs with h
  · linarith [Int.floor_le (-q * 100 + 1 / 2)]
  · linarith [Int.lt_floor_add_one (q * 100 + 1 / 2)]

/-! ## C1 — metric construction -/

/-- C1 (counterexample): at raw values `a = 0.014`, `b = 0` the difference
exceeds the 0.01 tolerance and `a > b`, so the claim demands direction "up";
the code rounds the diff to `0.01` first and classifies the metric "equal". -/
theorem buildMetric_raw_tolerance_cex :
    (0:ℚ) < (7:ℚ) / 500 - 0 ∧
    ¬(|(7:ℚ) / 500 - 0| ≤ SAFE_METRIC_DIFF_THRESHOLD) ∧
    (buildMetric "stars" "Repository Stars" ((7:ℚ) / 500) 0 none).direction = Direction.equal := by
  refine ⟨by norm_num, ?_, ?_⟩
  · unfold SAFE_METRIC_DIFF_THRESHOLD
    rw [not_le]
    rw [abs_of_pos (by norm_num)]
    norm_num
  · norm_num [buildMetric, round2, SAFE_METRIC_DIFF_THRESHOLD]
    intro hcontra
    rw [abs_of_pos (by norm_num : (0:ℚ) < 1 / 100)] at hcontra
    exact absurd hcontra (by norm_num)

/-- C1 (amended): for every metric built by `buildMetric` from raw values `a`
and `b`, the stored diff is `a − b` rounded to 2 decimals, the direction tag
is "equal" exactly when the absolute value of that **rounded** diff is at most
0.01, and otherwise the tag is "up" iff `a > b` and "down" iff `a < b`. -/
theorem buildMetric_direction_amended (id label : String) (a b : ℚ) (descr : Option String) :
    (buildMetric id label a b descr).diff = round2 (a - b) ∧
    ((buildMetric id label a b descr).direction = Direction.equal ↔
      |round2 (a - b)| ≤ SAFE_METRIC_DIFF_THRESHOLD) ∧
    (¬ |round2 (a - b)| ≤ SAFE_METRIC_DIFF_THRESHOLD →
      (((buildMetric id label a b descr).direction = Direction.up ↔ b < a) ∧
       ((buildMetric id label a b descr).direction = Direction.down ↔ a < b))) := by
  refine ⟨rfl, ?_, ?_⟩
  · by_cases h : |round2 (a - b)| ≤ SAFE_METRIC_DIFF_THRESHOLD
    · simp [buildMetric, h]
    · simp only [buildMetric, if_neg h]
      split_ifs <;> simp [h]
  · intro h
    have hb1 := round2_le (a - b)
    have hb2 := le_round2 (a - b)
    have habs : (1:ℚ) / 100 < |round2 (a - b)| := by
      have := not_le.mp h
      simpa [SAFE_METRIC_DIFF_THRESHOLD] using this
    rcases lt_abs.mp habs with hgt | hlt
    · have hba : b < a := by linarith
      have hdir : (buildMetric id label a b descr).direction = Direction.up := by
        simp only [buildMetric, if_neg h, if_pos (by linarith : (0:ℚ) < round2 (a - b))]
      constructor
      · rw [hdir]
        simp [hba]
      · rw [hdir]
        constructor
        · intro hcontra; exact absurd hcontra (by simp)
        · intro hab; exact absurd hab (by linarith)
    · have hab : a < b := by linarith
      have hdir : (buildMetric id label a b descr).direction = Direction.down := by
        simp only [buildMetric, if_neg h, if_neg (by linarith : ¬ (0:ℚ) < round2 (a - b))]
      constructor
      · rw [hdir]
        constructor
        · intro hcontra; exact absurd hcontra (by simp)
        · intro hba; exact absurd hba (by linarith)
      · rw [hdir]
        simp [hab]

/-! ## C2 — hero-metric selection -/

/-- C2: `selectHeroMetric` returns `none` iff every metric is "equal";
otherwise it agrees with the spec-side first-occurrence-of-the-maximum
selector, and the returned metric is a non-"equal" metric of the input whose
absolute diff dominates all non-"equal" metrics; on the concrete list
{stars: 150, followers: 5, repos: 0} it returns the stars metric. -/
theorem selectHeroMetric_spec (metrics : List ComparisonMetric) :
    (selectHeroMetric metrics = none ↔ ∀ m ∈ metrics, m.direction = Direction.equal) ∧
    selectHeroMetric metrics = heroSpecFirstMax metrics ∧
    (∀ m, selectHeroMetric metrics = some m →
      m ∈ metrics ∧ m.direction ≠ Direction.equal ∧
      ∀ y ∈ metrics, y.direction ≠ Direction.equal → |y.diff| ≤ |m.diff|) ∧
    selectHeroMetric
        [buildMetric "stars" "Repository Stars" 150 0 none,
         buildMetric "followers" "Followers" 5 0 none,
         buildMetric "repositories" "Public Repositories" 0 0 none] =
      some (buildMetric "stars" "Repository Stars" 150 0 none) := by
  have hmain : selectHeroMetric metrics = heroSpecFirstMax metrics :=
    head?_insertionSort heroAbsLe _
  refine ⟨?_, hmain, ?_, ?_⟩
  · unfold selectHeroMetric
    rw [List.head?_eq_none_iff]
    constructor
    · intro h m hm
      by_contra hne
      have hmem : m ∈ metrics.filter (fun m => decide (m.direction ≠ Direction.equal)) :=
        List.mem_filter.mpr ⟨hm, by simpa using hne⟩
      have hmem2 := ((List.perm_insertionSort heroAbsLe _).mem_iff).mpr hmem
      rw [h] at hmem2
      simp at hmem2
    · intro h
      have hnil : metrics.filter (fun m => decide (m.direction ≠ Direction.equal)) = [] := by
        rw [List.filter_eq_nil_iff]
        intro m hm
        simp [h m hm]
      rw [hnil]
      rfl
  · intro m hm
    rw [hmain] at hm
    unfold heroSpecFirstMax at hm
    have hmem := List.mem_of_find?_eq_some hm
    have hpred0 := @List.find?_some ComparisonMetric
      (fun x => (metrics.filter (fun m => decide (m.direction ≠ Direction.equal))).all
        (fun y => decide (heroAbsLe x y))) m _ hm
    have hpred : ((metrics.filter (fun m => decide (m.direction ≠ Direction.equal))).all
        (fun y => decide (heroAbsLe m y))) = true := hpred0
    have hmf := List.mem_filter.mp hmem
    refine ⟨hmf.1, by simpa using hmf.2, ?_⟩
    intro y hy hyne
    have hymem : y ∈ metrics.filter (fun m => decide (m.direction ≠ Direction.equal)) :=
      List.mem_filter.mpr ⟨hy, by simpa using hyne⟩
    have := (List.all_eq_true.mp hpred) y hymem
    exact of_decide_eq_true this
  · norm_num [selectHeroMetric, buildMetric, round2, SAFE_METRIC_DIFF_THRESHOLD,
      List.insertionSort, List.orderedInsert, heroAbsLe]

/-! ## C3 — language aggregation -/

/-- Pointwise percentage bound summed over a list of language stats. -/
theorem sum_pct_bound (T : ℕ) :
    ∀ l : List LanguageStat,
      (∀ s ∈ l, s.percentage ≤ (s.bytes : ℚ) / (T : ℚ) * 100 + 1 / 200) →
      ((l.map (fun s => s.percentage)).sum ≤
        ((l.map (fun s => s.bytes)).sum : ℚ) / (T : ℚ) * 100 + l.length * (1 / 200)) := by
  intro l
  induction l with
  | nil => intro _; simp
  | cons s rest ih =>
    intro h
    have hs := h s (List.mem_cons_self s rest)
    have hrest := ih (fun x hx => h x (List.mem_cons_of_mem s hx))
    simp only [List.map_cons, List.sum_cons, List.length_cons, Nat.cast_add, Nat.cast_one]
    have hsplit : ((s.bytes : ℚ) + ((rest.map (fun s => s.bytes)).sum : ℚ)) / (T : ℚ) * 100 =
        (s.bytes : ℚ) / (T : ℚ) * 100 +
          ((rest.map (fun s => s.bytes)).sum : ℚ) / (T : ℚ) * 100 := by
      ring
    rw [hsplit]
    linarith

/-- The at-most-8 retained entries account for at most all the bytes. -/
theorem take8_bytes_le (stats : List LanguageStat) :
    (((List.insertionSort bytesDescLe stats).take 8).map (fun s => s.bytes)).sum ≤
      (stats.map (fun s => s.bytes)).sum := by
  have hsub := List.Sublist.map (fun s : LanguageStat => s.bytes)
    (List.take_sublist 8 (List.insertionSort bytesDescLe stats))
  have hperm := (List.perm_insertionSort bytesDescLe stats).map (fun s : LanguageStat => s.bytes)
  have h1 := hsub.sum_le_sum (fun x _ => Nat.zero_le x)
  have h2 := hperm.sum_eq
  omega

/-- C3 (counterexample): with one GraphQL repository carrying language sizes
33336, 33336 and 33328, the three percentages round (half away from zero) to
33.34, 33.34 and 33.33, so their sum is 100.01 and exceeds 100. -/
theorem aggregateLanguageStats_sum_cex :
    ¬ ((aggregateLanguageStats []
        (some [⟨"r", [⟨33336, ⟨"A", none⟩⟩, ⟨33336, ⟨"B", none⟩⟩, ⟨33328, ⟨"C", none⟩⟩]⟩])).map
      (fun s => s.percentage)).sum ≤ 100 := by
  have h1 : languageTotals []
      (some [⟨"r", [⟨33336, ⟨"A", none⟩⟩, ⟨33336, ⟨"B", none⟩⟩, ⟨33328, ⟨"C", none⟩⟩]⟩]) =
      [("A", ⟨33336, none, 1⟩), ("B", ⟨33336, none, 1⟩), ("C", ⟨33328, none, 1⟩)] := by
    rfl
  have h2 : totalLanguageBytes
      [("A", ⟨33336, none, 1⟩), ("B", ⟨33336, none, 1⟩), ("C", ⟨33328, none, 1⟩)] = 100000 := by
    rfl
  simp only [aggregateLanguageStats, h1, h2]
  norm_num [List.insertionSort, List.orderedInsert, bytesDescLe, round2]

/-- C3 (amended): for every input pair (REST repository list, optional GraphQL
repository list), `aggregateLanguageStats` returns a language list sorted
descending by byte volume, truncated to at most 8 entries, with each
percentage equal to bytes divided by total bytes times 100 rounded to
2 decimals (0 for every entry when total bytes is 0); the sum of the returned
percentages is at most 100.04 — 100 plus half-a-cent rounding slack for each
of the at most 8 entries — but can exceed 100. -/
theorem aggregateLanguageStats_amended (restRepos : List RestRepo)
    (gqlRepos : Option (List GraphqlRepository)) :
    List.Pairwise (fun a b => b.bytes ≤ a.bytes) (aggregateLanguageStats restRepos gqlRepos) ∧
    (aggregateLanguageStats restRepos gqlRepos).length ≤ 8 ∧
    (∀ s ∈ aggregateLanguageStats restRepos gqlRepos,
      s.percentage =
        if totalLanguageBytes (languageTotals restRepos gqlRepos) = 0 then 0
        else round2 ((s.bytes : ℚ) /
          ((totalLanguageBytes (languageTotals restRepos gqlRepos)) : ℚ) * 100)) ∧
    ((aggregateLanguageStats restRepos gqlRepos).map (fun s => s.percentage)).sum ≤
      100 + 1 / 25 := by
  set totals := languageTotals restRepos gqlRepos with htotals
  set T := totalLanguageBytes totals with hT
  set f : String × LangEntry → LanguageStat := fun p =>
    (⟨p.1, p.2.bytes, p.2.repoCount, p.2.color,
      if T = 0 then 0 else round2 ((p.2.bytes : ℚ) / (T : ℚ) * 100)⟩ : LanguageStat) with hf
  have hres : aggregateLanguageStats restRepos gqlRepos =
      (List.insertionSort bytesDescLe (totals.map f)).take 8 := rfl
  have hmem_stats : ∀ s ∈ aggregateLanguageStats restRepos gqlRepos, ∃ p ∈ totals, s = f p := by
    intro s hs
    rw [hres] at hs
    have hs2 := (List.take_sublist 8 (List.insertionSort bytesDescLe (totals.map f))).mem hs
    have hs3 := ((List.perm_insertionSort bytesDescLe (totals.map f)).mem_iff).mp hs2
    rcases List.mem_map.mp hs3 with ⟨p, hp, hep⟩
    exact ⟨p, hp, hep.symm⟩
  have hlen : (aggregateLanguageStats restRepos gqlRepos).length ≤ 8 := by
    rw [hres]
    exact List.length_take_le 8 _
  have hpct : ∀ s ∈ aggregateLanguageStats restRepos gqlRepos,
      s.percentage = if T = 0 then 0 else round2 ((s.bytes : ℚ) / (T : ℚ) * 100) := by
    intro s hs
    rcases hmem_stats s hs with ⟨p, _, hep⟩
    rw [hep]
  refine ⟨?_, hlen, hpct, ?_⟩
  · rw [hres]
    exact List.Pairwise.sublist
      (List.take_sublist 8 (List.insertionSort bytesDescLe (totals.map f)))
      (List.sorted_insertionSort bytesDescLe (totals.map f))
  · by_cases hT0 : T = 0
    · have hsum0 : ((aggregateLanguageStats restRepos gqlRepos).map
          (fun s => s.percentage)).sum = 0 := by
        apply List.sum_eq_zero
        intro x hx
        rcases List.mem_map.mp hx with ⟨s, hs, hxs⟩
        rw [← hxs, hpct s hs, if_pos hT0]
      rw [hsum0]
      norm_num
    · have hTQ : (0:ℚ) < (T : ℚ) := by
        exact_mod_cast Nat.pos_of_ne_zero hT0
      have hub : ∀ s ∈ aggregateLanguageStats restRepos gqlRepos,
          s.percentage ≤ (s.bytes : ℚ) / (T : ℚ) * 100 + 1 / 200 := by
        intro s hs
        rw [hpct s hs, if_neg hT0]
        exact round2_le _
      have hbytes : ((aggregateLanguageStats restRepos gqlRepos).map (fun s => s.bytes)).sum ≤
          T := by
        have h1 := take8_bytes_le (totals.map f)
        have h2 : (((totals.map f).map (fun s => s.bytes)).sum : ℕ) = T := by
          rw [List.map_map]
          rfl
        rw [hres]
        omega
      have hmain := sum_pct_bound T (aggregateLanguageStats restRepos gqlRepos) hub
      have hfrac : (((aggregateLanguageStats restRepos gqlRepos).map
            (fun s => s.bytes)).sum : ℚ) / (T : ℚ) * 100 ≤ 100 := by
        rw [div_mul_eq_mul_div, div_le_iff₀ hTQ]
        have hcast : (((aggregateLanguageStats restRepos gqlRepos).map
            (fun s => s.bytes)).sum : ℚ) ≤ (T : ℚ) := by
          calc (((aggregateLanguageStats restRepos gqlRepos).map (fun s => s.bytes)).sum : ℚ)
              = ((((aggregateLanguageStats restRepos gqlRepos).map
                  (fun s => s.bytes)).map (Nat.cast : ℕ → ℚ)).sum) := by
                rw [List.map_map]
                congr 1
            _ = (((((aggregateLanguageStats restRepos gqlRepos).map
                  (fun s => s.bytes)).sum : ℕ) : ℚ)) := (Nat.cast_list_sum _).symm
            _ ≤ (T : ℚ) := by exact_mod_cast hbytes
        linarith
      have hlenQ : ((aggregateLanguageStats restRepos gqlRepos).length : ℚ) ≤ 8 := by
        exact_mod_cast hlen
      have hslack : ((aggregateLanguageStats restRepos gqlRepos).length : ℚ) * (1 / 200) ≤
          8 * (1 / 200) := by
        linarith
      calc ((aggregateLanguageStats restRepos gqlRepos).map (fun s => s.percentage)).sum
          ≤ (((aggregateLanguageStats restRepos gqlRepos).map (fun s => s.bytes)).sum : ℚ) /
              (T : ℚ) * 100 +
              ((aggregateLanguageStats restRepos gqlRepos).length : ℚ) * (1 / 200) := hmain
        _ ≤ 100 + 8 * (1 / 200) := by linarith
        _ = 100 + 1 / 25 := by norm_num

/-! ## C4 — TTL cache -/

theorem mapGet_mapSet_self {β : Type} (key : String) (v : β) :
    ∀ st : List (String × β), mapGet key (mapSet key v st) = some v := by
  intro st
  induction st with
  | nil => simp [mapGet, mapSet]
  | cons p rest ih =>
    by_cases hp : p.1 = key
    · simp [mapGet, mapSet, hp]
    · simp [mapGet, mapSet, hp, ih]

theorem mapGet_mapDelete_self {β : Type} (key : String) :
    ∀ st : List (String × β), mapGet key (mapDelete key st) = none := by
  intro st
  induction st with
  | nil => rfl
  | cons p rest ih =>
    by_cases hp : p.1 = key
    · simpa [mapDelete, List.filter, hp] using ih
    · simpa [mapDelete, mapGet, List.filter, hp] using ih

theorem remember_hit {V : Type} (now : ℕ) (key : String) (fv : V) (ttl : ℕ) (st : Store V)
    (e : Entry V) (hg : mapGet key st = some e) (hlive : ¬ e.expiresAt < now) :
    remember now key fv ttl st = ⟨e.value, st, false⟩ := by
  unfold remember cacheGet
  rw [hg]
  simp [hlive]

theorem remember_miss_none {V : Type} (now : ℕ) (key : String) (fv : V) (ttl : ℕ)
    (st : Store V) (hg : mapGet key st = none) :
    remember now key fv ttl st = ⟨fv, cacheSet now key fv ttl st, true⟩ := by
  unfold remember cacheGet
  rw [hg]

theorem remember_miss_expired {V : Type} (now : ℕ) (key : String) (fv : V) (ttl : ℕ)
    (st : Store V) (e : Entry V) (hg : mapGet key st = some e) (hexp : e.expiresAt < now) :
    remember now key fv ttl st = ⟨fv, cacheSet now key fv ttl (mapDelete key st), true⟩ := by
  unfold remember cacheGet
  rw [hg]
  simp [hexp]

/-- C4: writing `st1`, `v1` for the store and value after a first
`remember(key, factory)` call at time `t0`, and `e` for the entry then stored
under `key` (whose `expiresAt` is the TTL window): `v1 = e.value`; a second
call made at any `t1` within the window does not invoke its factory and
returns the same value `v1`, so the two calls together invoke a factory at
most once; at any `t2` past the window a `remember` call invokes its factory
again, and the expired entry is treated as absent and purged on access. -/
theorem remember_ttl_spec {V : Type} (st : Store V) (key : String)
    (f1 f2 f3 : V) (t0 t1 t2 ttl : ℕ) (e : Entry V)
    (hlookup : mapGet key (remember t0 key f1 ttl st).store = some e) :
    ((remember t0 key f1 ttl st).value = e.value) ∧
    (t1 ≤ e.expiresAt →
      (remember t1 key f2 ttl (remember t0 key f1 ttl st).store).value =
        (remember t0 key f1 ttl st).value ∧
      (remember t1 key f2 ttl (remember t0 key f1 ttl st).store).invoked = false) ∧
    (e.expiresAt < t2 →
      (remember t2 key f3 ttl (remember t0 key f1 ttl st).store).invoked = true ∧
      (remember t2 key f3 ttl (remember t0 key f1 ttl st).store).value = f3 ∧
      (cacheGet t2 key (remember t0 key f1 ttl st).store).1 = none ∧
      mapGet key (cacheGet t2 key (remember t0 key f1 ttl st).store).2 = none) := by
  have hval : (remember t0 key f1 ttl st).value = e.value := by
    rcases hg : mapGet key st with _ | e0
    · rw [remember_miss_none t0 key f1 ttl st hg] at hlookup ⊢
      have : mapGet key (cacheSet t0 key f1 ttl st) = some (⟨f1, t0 + ttl⟩ : Entry V) :=
        mapGet_mapSet_self key _ st
      rw [this] at hlookup
      cases hlookup
      rfl
    · by_cases hexp : e0.expiresAt < t0
      · rw [remember_miss_expired t0 key f1 ttl st e0 hg hexp] at hlookup ⊢
        have : mapGet key (cacheSet t0 key f1 ttl (mapDelete key st)) =
            some (⟨f1, t0 + ttl⟩ : Entry V) :=
          mapGet_mapSet_self key _ _
        rw [this] at hlookup
        cases hlookup
        rfl
      · rw [remember_hit t0 key f1 ttl st e0 hg hexp] at hlookup ⊢
        rw [hg] at hlookup
        cases hlookup
        rfl
  refine ⟨hval, ?_, ?_⟩
  · intro hlive
    rw [remember_hit t1 key f2 ttl _ e hlookup (not_lt.mpr hlive)]
    exact ⟨hval.symm, rfl⟩
  · intro hexp2
    have hget2 : cacheGet t2 key (remember t0 key f1 ttl st).store =
        (none, mapDelete key (remember t0 key f1 ttl st).store) := by
      unfold cacheGet
      rw [hlookup]
      simp [hexp2]
    refine ⟨?_, ?_, ?_, ?_⟩
    · rw [remember_miss_expired t2 key f3 ttl _ e hlookup hexp2]
    · rw [remember_miss_expired t2 key f3 ttl _ e hlookup hexp2]
    · rw [hget2]
    · rw [hget2]
      exact mapGet_mapDelete_self key _

/-- C4 witness: a fresh cache, `remember` at time 0 with TTL 1000, a second
call at time 100 (inside the window) and a third at time 2000 (past it). -/
theorem remember_ttl_spec_witness :
    (mapGet "k" (remember 0 "k" (1:ℕ) 1000 ([] : Store ℕ)).store =
      some (⟨1, 1000⟩ : Entry ℕ)) ∧
    (((remember 0 "k" (1:ℕ) 1000 ([] : Store ℕ)).value = (⟨1, 1000⟩ : Entry ℕ).value) ∧
    ((100:ℕ) ≤ (⟨1, 1000⟩ : Entry ℕ).expiresAt →
      (remember 100 "k" (2:ℕ) 1000 (remember 0 "k" (1:ℕ) 1000 ([] : Store ℕ)).store).value =
        (remember 0 "k" (1:ℕ) 1000 ([] : Store ℕ)).value ∧
      (remember 100 "k" (2:ℕ) 1000
        (remember 0 "k" (1:ℕ) 1000 ([] : Store ℕ)).store).invoked = false) ∧
    ((⟨1, 1000⟩ : Entry ℕ).expiresAt < 2000 →
      (remember 2000 "k" (3:ℕ) 1000
        (remember 0 "k" (1:ℕ) 1000 ([] : Store ℕ)).store).invoked = true ∧
      (remember 2000 "k" (3:ℕ) 1000
        (remember 0 "k" (1:ℕ) 1000 ([] : Store ℕ)).store).value = 3 ∧
      (cacheGet 2000 "k" (remember 0 "k" (1:ℕ) 1000 ([] : Store ℕ)).store).1 = none ∧
      mapGet "k" (cacheGet 2000 "k"
        (remember 0 "k" (1:ℕ) 1000 ([] : Store ℕ)).store).2 = none)) :=
  ⟨rfl, remember_ttl_spec [] "k" 1 2 3 0 100 2000 1000 ⟨1, 1000⟩ rfl⟩

/-! ## C5 — pagination cap and exact totals -/

theorem computeTotals_go (repos : List RestRepo) :
    ∀ acc : Totals,
      repos.foldl (fun acc repo =>
        (⟨acc.stars + repo.stargazers_count, acc.forks + repo.forks_count,
          acc.watchers + repo.watchers_count, acc.issues + repo.open_issues_count⟩ : Totals))
        acc =
      ⟨acc.stars + (repos.map (fun r => r.stargazers_count)).sum,
       acc.forks + (repos.map (fun r => r.forks_count)).sum,
       acc.watchers + (repos.map (fun r => r.watchers_count)).sum,
       acc.issues + (repos.map (fun r => r.open_issues_count)).sum⟩ := by
  induction repos with
  | nil => intro acc; simp
  | cons r rs ih =>
    intro acc
    simp only [List.foldl_cons, List.map_cons, List.sum_cons, ih]
    simp only [Totals.mk.injEq]
    omega

theorem computeTotals_eq_sums (repos : List RestRepo) :
    computeTotals repos =
      ⟨(repos.map (fun r => r.stargazers_count)).sum,
       (repos.map (fun r => r.forks_count)).sum,
       (repos.map (fun r => r.watchers_count)).sum,
       (repos.map (fun r => r.open_issues_count)).sum⟩ := by
  unfold computeTotals
  rw [computeTotals_go repos ⟨0, 0, 0, 0⟩]
  simp

theorem fetchReposGo_length (pages : ℕ → RepoPage)
    (hcap : ∀ n, (pages n).batch.length ≤ 100) :
    ∀ k page acc, page ≤ 3 → 3 - page < k →
      (fetchReposGo pages page acc).length ≤ acc.length + (4 - page) * 100 := by
  intro k
  induction k with
  | zero => intro page acc _ h2; omega
  | succ k ih =>
    intro page acc hpage hk
    rw [fetchReposGo]
    split_ifs with hc
    · have := hcap page
      simp only [List.length_append]
      omega
    · push_neg at hc
      have hlt : page < 3 := hc.2.2
      have hrec := ih (page + 1) (acc ++ (pages page).batch) (by omega) (by omega)
      have := hcap page
      simp only [List.length_append] at hrec ⊢
      omega

/-- C5: when every page honours `per_page = 100`, `fetchUserRepositories`
returns at most 300 repositories; it stops after the first page when that
page has no continuation link or fewer than 100 items; and `computeTotals`
over the fetched list is the elementwise exact sum of stars, forks, watchers
and open issues over exactly those repositories. -/
theorem fetchUserRepositories_totals_spec (pages : ℕ → RepoPage)
    (hcap : ∀ n, (pages n).batch.length ≤ 100) :
    (fetchUserRepositories pages).length ≤ 300 ∧
    ((pages 1).hasNext = false ∨ (pages 1).batch.length < 100 →
      fetchUserRepositories pages = (pages 1).batch) ∧
    computeTotals (fetchUserRepositories pages) =
      ⟨((fetchUserRepositories pages).map (fun r => r.stargazers_count)).sum,
       ((fetchUserRepositories pages).map (fun r => r.forks_count)).sum,
       ((fetchUserRepositories pages).map (fun r => r.watchers_count)).sum,
       ((fetchUserRepositories pages).map (fun r => r.open_issues_count)).sum⟩ := by
  refine ⟨?_, ?_, computeTotals_eq_sums _⟩
  · have h := fetchReposGo_length pages hcap 4 1 [] (by omega) (by omega)
    simpa [fetchUserRepositories] using h
  · intro h
    unfold fetchUserRepositories
    rw [fetchReposGo]
    have hc : (pages 1).hasNext = false ∨ (pages 1).batch.length < 100 ∨ 3 ≤ 1 := by
      rcases h with h | h
      · exact Or.inl h
      · exact Or.inr (Or.inl h)
    rw [dif_pos hc]
    simp

/-- C5 witness: a server that always answers with an empty page and no
continuation link. -/
theorem fetchUserRepositories_totals_spec_witness :
    (fetchUserRepositories (fun _ => (⟨[], false⟩ : RepoPage))).length ≤ 300 ∧
    ((⟨[], false⟩ : RepoPage).hasNext = false ∨ (⟨[], false⟩ : RepoPage).batch.length < 100 →
      fetchUserRepositories (fun _ => (⟨[], false⟩ : RepoPage)) =
        (⟨[], false⟩ : RepoPage).batch) ∧
    computeTotals (fetchUserRepositories (fun _ => (⟨[], false⟩ : RepoPage))) =
      ⟨((fetchUserRepositories (fun _ => (⟨[], false⟩ : RepoPage))).map
          (fun r => r.stargazers_count)).sum,
       ((fetchUserRepositories (fun _ => (⟨[], false⟩ : RepoPage))).map
          (fun r => r.forks_count)).sum,
       ((fetchUserRepositories (fun _ => (⟨[], false⟩ : RepoPage))).map
          (fun r => r.watchers_count)).sum,
       ((fetchUserRepositories (fun _ => (⟨[], false⟩ : RepoPage))).map
          (fun r => r.open_issues_count)).sum⟩ :=
  fetchUserRepositories_totals_spec (fun _ => (⟨[], false⟩ : RepoPage)) (fun _ => by simp)

/-! ## C6 — handle normalization -/

theorem handleChar_facts (c : Char) (hc : isHandleChar c = true) :
    isWsChar c = false ∧ c ≠ '.' ∧ c ≠ '@' ∧ isPathStop c = false := by
  refine ⟨?_, ?_, ?_, ?_⟩
  · cases hw : isWsChar c
    · rfl
    · simp only [isWsChar, Bool.or_eq_true, beq_iff_eq] at hw
      obtain ((hw | hw) | hw) | hw := hw <;> (rw [hw] at hc; exact absurd hc (by decide))
  · intro he
    rw [he] at hc
    exact absurd hc (by decide)
  · intro he
    rw [he] at hc
    exact absurd hc (by decide)
  · cases hp : isPathStop c
    · rfl
    · simp only [isPathStop, Bool.or_eq_true, beq_iff_eq] at hp
      obtain (hp | hp) | hp := hp <;> (rw [hp] at hc; exact absurd hc (by decide))

theorem dropWhile_eq_self_of_none {α : Type} (p : α → Bool) (l : List α)
    (h : ∀ c ∈ l, p c = false) : l.dropWhile p = l := by
  cases l with
  | nil => rfl
  | cons c rest => simp [List.dropWhile_cons, h c (List.mem_cons_self c rest)]

theorem trimChars_eq_self (l : List Char) (h : ∀ c ∈ l, isWsChar c = false) :
    trimChars l = l := by
  unfold trimChars
  rw [dropWhile_eq_self_of_none _ _ h]
  rw [dropWhile_eq_self_of_none _ _ (fun c hc => h c (List.mem_reverse.mp hc))]
  exact List.reverse_reverse l

theorem matchCI_mem : ∀ (ps : List (Char × Char)) (l : List Char), matchCI ps l = true →
    ∀ q ∈ ps, ∃ c ∈ l, c = q.1 ∨ c = q.2 := by
  intro ps
  induction ps with
  | nil => intro l _ q hq; simp at hq
  | cons p ps ih =>
    intro l hm q hq
    cases l with
    | nil => simp [matchCI] at hm
    | cons c cs =>
      simp only [matchCI, Bool.and_eq_true, Bool.or_eq_true, beq_iff_eq] at hm
      rcases List.mem_cons.mp hq with hq | hq
      · refine ⟨c, List.mem_cons_self c cs, ?_⟩
        rw [hq]
        exact hm.1
      · rcases ih cs hm.2 q hq with ⟨c2, hc2, he⟩
        exact ⟨c2, List.mem_cons_of_mem c hc2, he⟩

theorem matchCI_dot (l : List Char) (hm : matchCI ghPattern l = true) : '.' ∈ l := by
  rcases matchCI_mem ghPattern l hm ('.', '.') (by decide) with ⟨c, hc, he⟩
  rcases he with he | he <;> (rw [he] at hc; exact hc)

theorem scanGithubUrl_eq_none (l : List Char) (h : ∀ c ∈ l, c ≠ '.') :
    scanGithubUrl l = none := by
  induction l with
  | nil => rfl
  | cons c rest ih =>
    have hm : matchCI ghPattern (c :: rest) = false := by
      cases hmm : matchCI ghPattern (c :: rest)
      · rfl
      · exact absurd rfl (h '.' (matchCI_dot _ hmm))
    rw [scanGithubUrl, if_neg (by simp [hm])]
    exact ih (fun c2 hc2 => h c2 (List.mem_cons_of_mem c hc2))

theorem takeWhile_not_pathStop_eq_self (l : List Char) (h : ∀ c ∈ l, isPathStop c = false) :
    l.takeWhile (fun d => !(isPathStop d)) = l := by
  induction l with
  | nil => rfl
  | cons c rest ih =>
    rw [List.takeWhile_cons]
    rw [h c (List.mem_cons_self c rest)]
    simp only [Bool.not_false, if_true]
    rw [ih (fun c2 hc2 => h c2 (List.mem_cons_of_mem c hc2))]

/-- C6: for every valid handle, the bare form, the `@`-prefixed form and the
profile-URL form all sanitize to the same login, hence to identical
lower-cased cache keys; and any input whose trimmed form is empty fails with
the invalid-input error. -/
theorem sanitizeLogin_spec (handle : List Char) (hv : ValidHandle handle) :
    sanitizeLogin handle = some handle ∧
    sanitizeLogin ('@' :: handle) = some handle ∧
    sanitizeLogin (profileUrlStart ++ handle) = some handle ∧
    (sanitizeLogin ('@' :: handle)).map toCacheKey = (sanitizeLogin handle).map toCacheKey ∧
    (sanitizeLogin (profileUrlStart ++ handle)).map toCacheKey =
      (sanitizeLogin handle).map toCacheKey ∧
    (∀ s : List Char, trimChars s = [] → sanitizeLogin s = none) := by
  obtain ⟨hne, hchars⟩ := hv
  have hnws : ∀ c ∈ handle, isWsChar c = false :=
    fun c hc => (handleChar_facts c (hchars c hc)).1
  have hndot : ∀ c ∈ handle, c ≠ '.' :=
    fun c hc => (handleChar_facts c (hchars c hc)).2.1
  have hnat : ∀ c ∈ handle, c ≠ '@' :=
    fun c hc => (handleChar_facts c (hchars c hc)).2.2.1
  have hnstop : ∀ c ∈ handle, isPathStop c = false :=
    fun c hc => (handleChar_facts c (hchars c hc)).2.2.2
  have hnotEmpty : handle.isEmpty = false := by
    cases handle
    · exact absurd rfl hne
    · rfl
  have hstrip : stripLeadingAt handle = handle := by
    cases handle with
    | nil => rfl
    | cons c t =>
      show (if c = '@' then t else c :: t) = c :: t
      rw [if_neg (hnat c (List.mem_cons_self c t))]
  have h1 : sanitizeLogin handle = some handle := by
    unfold sanitizeLogin
    simp only [trimChars_eq_self handle hnws, hnotEmpty, Bool.false_eq_true, if_false,
      scanGithubUrl_eq_none handle hndot, hstrip]
  have h2 : sanitizeLogin ('@' :: handle) = some handle := by
    have hnws2 : ∀ c ∈ '@' :: handle, isWsChar c = false := by
      intro c hc
      rcases List.mem_cons.mp hc with hc | hc
      · rw [hc]; decide
      · exact hnws c hc
    have hndot2 : ∀ c ∈ '@' :: handle, c ≠ '.' := by
      intro c hc
      rcases List.mem_cons.mp hc with hc | hc
      · rw [hc]; decide
      · exact hndot c hc
    unfold sanitizeLogin
    simp only [trimChars_eq_self _ hnws2, List.isEmpty_cons, Bool.false_eq_true, if_false,
      scanGithubUrl_eq_none _ hndot2]
    show some (if '@' = '@' then handle else '@' :: handle) = some handle
    rw [if_pos rfl]
  have h3 : sanitizeLogin (profileUrlStart ++ handle) = some handle := by
    have hpre : ∀ c ∈ profileUrlStart, isWsChar c = false := by decide
    have hnws3 : ∀ c ∈ profileUrlStart ++ handle, isWsChar c = false := by
      intro c hc
      rcases List.mem_append.mp hc with hc | hc
      · exact hpre c hc
      · exact hnws c hc
    have hscan : scanGithubUrl (profileUrlStart ++ handle) =
        if (handle.takeWhile (fun d => !(isPathStop d))).isEmpty then
          scanGithubUrl (['i', 't', 'h', 'u', 'b', '.', 'c', 'o', 'm', '/'] ++ handle)
        else some (handle.takeWhile (fun d => !(isPathStop d))) := rfl
    rw [takeWhile_not_pathStop_eq_self handle hnstop] at hscan
    rw [hnotEmpty] at hscan
    simp only [Bool.false_eq_true, if_false] at hscan
    unfold sanitizeLogin
    have hne3 : (profileUrlStart ++ handle).isEmpty = false := rfl
    simp only [trimChars_eq_self _ hnws3, hne3, Bool.false_eq_true, if_false, hscan]
  refine ⟨h1, h2, h3, by rw [h1, h2], by rw [h1, h3], ?_⟩
  intro s hs
  unfold sanitizeLogin
  rw [hs]
  rfl

/-- C6 witness: the handle `alice`. -/
theorem sanitizeLogin_spec_witness :
    ValidHandle ['a', 'l', 'i', 'c', 'e'] ∧
    (sanitizeLogin ['a', 'l', 'i', 'c', 'e'] = some ['a', 'l', 'i', 'c', 'e'] ∧
    sanitizeLogin ('@' :: ['a', 'l', 'i', 'c', 'e']) = some ['a', 'l', 'i', 'c', 'e'] ∧
    sanitizeLogin (profileUrlStart ++ ['a', 'l', 'i', 'c', 'e']) =
      some ['a', 'l', 'i', 'c', 'e'] ∧
    (sanitizeLogin ('@' :: ['a', 'l', 'i', 'c', 'e'])).map toCacheKey =
      (sanitizeLogin ['a', 'l', 'i', 'c', 'e']).map toCacheKey ∧
    (sanitizeLogin (profileUrlStart ++ ['a', 'l', 'i', 'c', 'e'])).map toCacheKey =
      (sanitizeLogin ['a', 'l', 'i', 'c', 'e']).map toCacheKey ∧
    (∀ s : List Char, trimChars s = [] → sanitizeLogin s = none)) :=
  ⟨⟨by decide, by decide⟩, sanitizeLogin_spec ['a', 'l', 'i', 'c', 'e'] ⟨by decide, by decide⟩⟩

/-! ## C7 — contribution streaks -/

/-- C7: `aggregateContributionStats` computes the streaks exactly as the
spec-side scan over the date-sorted flattened days — sorting all contribution
days by date, scanning once, incrementing the running streak on every day
with count > 0 and resetting it to 0 otherwise while tracking the maximum —
and the day-count sequence [1,1,0,1,1,1,0,0] yields current streak 0 and
longest streak 3. -/
theorem contribution_streak_spec :
    (∀ cal : GraphqlContributionCalendar,
      ∃ s, aggregateContributionStats (some cal) = some s ∧
        s.streak.current =
          (streakScanSpec (sortedContributionDays cal.contributionCalendar.weeks)).1 ∧
        s.streak.longest =
          (streakScanSpec (sortedContributionDays cal.contributionCalendar.weeks)).2) ∧
    (∃ s, aggregateContributionStats (some
        ⟨⟨4, [⟨"2024-01-01",
          [⟨"2024-01-01", 1⟩, ⟨"2024-01-02", 1⟩, ⟨"2024-01-03", 0⟩, ⟨"2024-01-04", 1⟩,
           ⟨"2024-01-05", 1⟩, ⟨"2024-01-06", 1⟩, ⟨"2024-01-07", 0⟩,
           ⟨"2024-01-08", 0⟩]⟩]⟩, 0, 0, 0, 0, 0⟩) = some s ∧
      s.streak.current = 0 ∧ s.streak.longest = 3) := by
  constructor
  · intro cal
    exact ⟨_, rfl, rfl, rfl⟩
  · exact ⟨_, rfl, by decide, by decide⟩

/-! ## C8 — narrative and meme categorization -/

theorem pickRandom_mem (r : ℕ) (items : List String) (h : items ≠ []) :
    pickRandom r items ∈ items := by
  unfold pickRandom
  have hlen : 0 < items.length := List.length_pos.mpr h
  have hmod : r % items.length < items.length := Nat.mod_lt r hlen
  rw [List.getD_eq_getElem _ _ hmod]
  exact List.getElem_mem hmod

/-- C8: with a hero metric, the winner named by the summary sentence and by
the meme prompt's phrase pools is userA iff the hero diff is ≥ 0 (otherwise
userB); the meme template is drawn from the "dominant" pool when the absolute
gap exceeds 100, from the "close" pool when it is below 10, and from the
"upset" pool otherwise; with no hero metric the separate tie pools supply the
template and both caption lines. -/
theorem narrative_winner_category_spec (res resTie : ComparisonResult)
    (m : ComparisonMetric) (r1 r2 r3 : ℕ)
    (hhero : res.heroMetric = some m) (htie : resTie.heroMetric = none) :
    (buildSummary res = outshineSentence
      (if 0 ≤ m.diff then res.userA.login else res.userB.login)
      (if 0 ≤ m.diff then res.userB.login else res.userA.login) m) ∧
    (100 < |m.diff| →
      (deriveMemePrompt r1 r2 r3 res).templateId ∈ memeTemplatesDominant) ∧
    (|m.diff| < 10 → (deriveMemePrompt r1 r2 r3 res).templateId ∈ memeTemplatesClose) ∧
    (10 ≤ |m.diff| → |m.diff| ≤ 100 →
      (deriveMemePrompt r1 r2 r3 res).templateId ∈ memeTemplatesUpset) ∧
    ((deriveMemePrompt r1 r2 r3 res).topText ∈ scenarioTopOptions (scenarioOf |m.diff|)
      (if 0 ≤ m.diff then res.userA else res.userB)
      (if 0 ≤ m.diff then res.userB else res.userA)
      m.label.toLower
      (formatStat (if 0 ≤ m.diff then m.userA else m.userB))) ∧
    (buildSummary resTie = tieSentence resTie.userA.login resTie.userB.login) ∧
    ((deriveMemePrompt r1 r2 r3 resTie).templateId ∈ memeTemplatesTie) ∧
    ((deriveMemePrompt r1 r2 r3 resTie).topText ∈ tieTopOptions resTie.userA resTie.userB) ∧
    ((deriveMemePrompt r1 r2 r3 resTie).bottomText ∈
      tieBottomOptions resTie.userA resTie.userB) := by
  have hTmain : (deriveMemePrompt r1 r2 r3 res).templateId =
      pickRandom r1 (memeTemplatePool (scenarioOf |m.diff|)) := by
    simp only [deriveMemePrompt, hhero]
  refine ⟨?_, ?_, ?_, ?_, ?_, ?_, ?_, ?_, ?_⟩
  · simp only [buildSummary, hhero]
  · intro hgt
    rw [hTmain]
    have hsc : scenarioOf |m.diff| = Scenario.dominant := by
      unfold scenarioOf
      rw [if_pos hgt]
    rw [hsc]
    exact pickRandom_mem r1 memeTemplatesDominant (by unfold memeTemplatesDominant; simp)
  · intro hlt
    rw [hTmain]
    have hsc : scenarioOf |m.diff| = Scenario.close := by
      unfold scenarioOf
      rw [if_neg (by intro hcontra; linarith), if_pos hlt]
    rw [hsc]
    exact pickRandom_mem r1 memeTemplatesClose (by unfold memeTemplatesClose; simp)
  · intro h10 h100
    rw [hTmain]
    have hsc : scenarioOf |m.diff| = Scenario.upset := by
      unfold scenarioOf
      rw [if_neg (not_lt.mpr h100), if_neg (not_lt.mpr h10)]
    rw [hsc]
    exact pickRandom_mem r1 memeTemplatesUpset (by unfold memeTemplatesUpset; simp)
  · have hTop : (deriveMemePrompt r1 r2 r3 res).topText =
        pickRandom r2 (scenarioTopOptions (scenarioOf |m.diff|)
          (if 0 ≤ m.diff then res.userA else res.userB)
          (if 0 ≤ m.diff then res.userB else res.userA)
          m.label.toLower
          (formatStat (if 0 ≤ m.diff then m.userA else m.userB))) := by
      simp only [deriveMemePrompt, hhero]
    rw [hTop]
    refine pickRandom_mem r2 _ ?_
    cases scenarioOf |m.diff| <;> simp [scenarioTopOptions]
  · simp only [buildSummary, htie]
  · have hT : (deriveMemePrompt r1 r2 r3 resTie).templateId =
        pickRandom r1 memeTemplatesTie := by
      simp only [deriveMemePrompt, htie]
    rw [hT]
    exact pickRandom_mem r1 memeTemplatesTie (by unfold memeTemplatesTie; simp)
  · have hT : (deriveMemePrompt r1 r2 r3 resTie).topText =
        pickRandom r2 (tieTopOptions resTie.userA resTie.userB) := by
      simp only [deriveMemePrompt, htie]
    rw [hT]
    exact pickRandom_mem r2 _ (by unfold tieTopOptions; simp)
  · have hT : (deriveMemePrompt r1 r2 r3 resTie).bottomText =
        pickRandom r3 (tieBottomOptions resTie.userA resTie.userB) := by
      simp only [deriveMemePrompt, htie]
    rw [hT]
    exact pickRandom_mem r3 _ (by unfold tieBottomOptions; simp)

/-- C8 witness: a comparison whose hero metric is stars with diff 150
(userA = 500, userB = 350), and a tie comparison with no hero metric. -/
theorem narrative_winner_category_spec_witness :
    sampleComparison.heroMetric = some sampleStarsMetric ∧
    sampleTieComparison.heroMetric = none ∧
    ((buildSummary sampleComparison = outshineSentence
      (if 0 ≤ sampleStarsMetric.diff then sampleComparison.userA.login
        else sampleComparison.userB.login)
      (if 0 ≤ sampleStarsMetric.diff then sampleComparison.userB.login
        else sampleComparison.userA.login) sampleStarsMetric) ∧
    (100 < |sampleStarsMetric.diff| →
      (deriveMemePrompt 0 1 2 sampleComparison).templateId ∈ memeTemplatesDominant) ∧
    (|sampleStarsMetric.diff| < 10 →
      (deriveMemePrompt 0 1 2 sampleComparison).templateId ∈ memeTemplatesClose) ∧
    (10 ≤ |sampleStarsMetric.diff| → |sampleStarsMetric.diff| ≤ 100 →
      (deriveMemePrompt 0 1 2 sampleComparison).templateId ∈ memeTemplatesUpset) ∧
    ((deriveMemePrompt 0 1 2 sampleComparison).topText ∈
      scenarioTopOptions (scenarioOf |sampleStarsMetric.diff|)
      (if 0 ≤ sampleStarsMetric.diff then sampleComparison.userA
        else sampleComparison.userB)
      (if 0 ≤ sampleStarsMetric.diff then sampleComparison.userB
        else sampleComparison.userA)
      sampleStarsMetric.label.toLower
      (formatStat (if 0 ≤ sampleStarsMetric.diff then sampleStarsMetric.userA
        else sampleStarsMetric.userB))) ∧
    (buildSummary sampleTieComparison =
      tieSentence sampleTieComparison.userA.login sampleTieComparison.userB.login) ∧
    ((deriveMemePrompt 0 1 2 sampleTieComparison).templateId ∈ memeTemplatesTie) ∧
    ((deriveMemePrompt 0 1 2 sampleTieComparison).topText ∈
      tieTopOptions sampleTieComparison.userA sampleTieComparison.userB) ∧
    ((deriveMemePrompt 0 1 2 sampleTieComparison).bottomText ∈
      tieBottomOptions sampleTieComparison.userA sampleTieComparison.userB)) :=
  ⟨rfl, rfl, narrative_winner_category_spec sampleComparison sampleTieComparison
    sampleStarsMetric 0 1 2 rfl rfl⟩

/-! ## C9 — the GraphQL client wrapper -/

/-- C9: with no (or an empty-string) credential, `githubGraphqlFetch` returns
null without raising; with a credential, it raises a `GitHubApiError`
carrying the HTTP status and payload exactly when the response is non-success
or the errors array is non-empty, and otherwise returns the data. -/
theorem githubGraphqlFetch_spec {T : Type} (token : Option String) (resp : HttpResponse T) :
    (hasToken token = false → githubGraphqlFetch token resp = Except.ok none) ∧
    (hasToken token = true →
      ((resp.ok = false ∨ errorsNonempty resp.payload = true) →
        githubGraphqlFetch token resp =
          Except.error ⟨graphqlErrorMessage resp.payload resp.status, resp.status,
            resp.payload⟩) ∧
      (resp.ok = true → errorsNonempty resp.payload = false →
        githubGraphqlFetch token resp = Except.ok resp.payload.data) ∧
      (∀ err, githubGraphqlFetch token resp = Except.error err →
        ((resp.ok = false ∨ errorsNonempty resp.payload = true) ∧
          err.status = resp.status ∧ err.data = resp.payload))) := by
  refine ⟨?_, ?_⟩
  · intro h
    unfold githubGraphqlFetch
    rw [if_pos h]
  · intro h
    have hnot : ¬ hasToken token = false := by simp [h]
    refine ⟨?_, ?_, ?_⟩
    · intro hc
      unfold githubGraphqlFetch
      rw [if_neg hnot, if_pos hc]
    · intro hok herr
      unfold githubGraphqlFetch
      rw [if_neg hnot, if_neg (by simp [hok, herr])]
    · intro err herr2
      unfold githubGraphqlFetch at herr2
      rw [if_neg hnot] at herr2
      by_cases hc : resp.ok = false ∨ errorsNonempty resp.payload = true
      · rw [if_pos hc] at herr2
        cases herr2
        exact ⟨hc, rfl, rfl⟩
      · rw [if_neg hc] at herr2
        simp at herr2

end GhCompare
